import Mathlib

/-!
Shallow embedding of the XOR-classification notebook: the `XORDataset`
generator, the sequential batch loader, the two-layer `SimpleClassifier`
with tanh activation, the binary-cross-entropy-with-logits loss, the SGD
training loop (`train_model`), the evaluator (`eval_model`) and the
`state_dict` round trip.  Randomness is made explicit: the Bernoulli bit
draws and the Gaussian noise draws are passed in as oracle functions, so
every operation is a pure function of its inputs.  Library calls
(`DataLoader`, `BCEWithLogitsLoss`, `optim.SGD`, autograd accumulation,
`torch.save`/`torch.load`) are modelled from the semantics the notebook
itself documents in its markdown cells.
-/

namespace MAD

/-! ## Dataset generator (`XORDataset`) -/

/-- The payload produced by `XORDataset`: the stored `size` and `std`
together with the (noised) feature pairs and the integer labels.
`data i` models `self.data[idx]`, `label i` models `self.label[idx]`. -/
structure XORData where
  size : ℕ
  std : ℝ
  data : ℕ → ℝ × ℝ
  label : ℕ → ℤ

/-- `XORDataset.generate_continuous_xor`.  The bit draws from
`torch.randint(low=0, high=2, ...)` are passed in as `bits` (integer-valued,
each component meant to be 0 or 1, cast exactly to float), and the standard
normal draws from `torch.randn` as `noise`.  Mirrors the source lines:
`label = (data.sum(dim=1) == 1)` computed on the clean bits, then
`data += self.std * torch.randn(data.shape)`. -/
def generate_continuous_xor (std : ℝ) (bits : ℕ → ℤ × ℤ) (noise : ℕ → ℝ × ℝ) :
    (ℕ → ℝ × ℝ) × (ℕ → ℤ) :=
  (fun i => (((bits i).1 : ℝ) + std * (noise i).1, ((bits i).2 : ℝ) + std * (noise i).2),
   fun i => if (bits i).1 + (bits i).2 = 1 then 1 else 0)

/-- `XORDataset.__init__(size, std)`.  The constructor performs no
validation of its own; the only failure path is `torch.randint` raising at
tensor creation when asked for a negative dimension, modelled as the
`Except.error` branch for `size < 0`.  A non-negative `size` (including 0)
and any `std` (including negative values) produce a dataset. -/
def XORDataset.init (size : ℤ) (std : ℝ) (bits : ℕ → ℤ × ℤ) (noise : ℕ → ℝ × ℝ) :
    Except String XORData :=
  if size < 0 then
    Except.error "Trying to create tensor with negative dimension"
  else
    Except.ok
      { size := size.toNat
        std := std
        data := (generate_continuous_xor std bits noise).1
        label := (generate_continuous_xor std bits noise).2 }

/-- Whether an `Except` value is the success constructor. -/
def exceptIsOk {ε α : Type} : Except ε α → Bool
  | Except.ok _ => true
  | Except.error _ => false

/-! ## Sequential batch loader (`torch.utils.data.DataLoader`)

The notebook constructs `data.DataLoader(dataset, batch_size, shuffle,
drop_last)` and documents its semantics in prose: batches stack
`batch_size` consecutive samples, and `drop_last=True` discards the final
batch when the dataset size is not a multiple of the batch size.  With
`shuffle=False` the traversal order is the natural index order.  Modelled
from that documented contract: `loaderBatches n b drop` is the list of
index batches the loader yields over a dataset of size `n`. -/

/-- Slice a list into consecutive chunks of length `b`; `fuel` bounds the
recursion (any `fuel ≥ l.length` gives the full chunking when `0 < b`). -/
def chunksAux (b : ℕ) : ℕ → List ℕ → List (List ℕ)
  | 0, _ => []
  | _ + 1, [] => []
  | fuel + 1, x :: xs => (x :: xs).take b :: chunksAux b fuel ((x :: xs).drop b)

/-- The sequence of index batches yielded by a sequential (non-shuffled)
`DataLoader` over a dataset of size `n` with batch size `b`: consecutive
chunks of `0 .. n-1`; with `dropLast = true` only the full chunks remain. -/
def loaderBatches (n b : ℕ) (dropLast : Bool) : List (List ℕ) :=
  let cs := chunksAux b n (List.range n)
  if dropLast then cs.filter (fun c => c.length == b) else cs

/-! ## The model (`SimpleClassifier(num_inputs=2, num_hidden=H, num_outputs=1)`)

`linear1` is an affine map `ℝ² → ℝ^H`, the activation is `tanh`, `linear2`
is an affine map `ℝ^H → ℝ`; the trailing `squeeze(dim=1)` of the training
loop makes the output a scalar logit per sample, so `linear2`'s weight
`[1, H]` and bias `[1]` are carried as a vector and a scalar. -/

/-- The four parameter tensors of `SimpleClassifier`, shapes
`[H, 2]`, `[H]`, `[1, H]` (squeezed), `[1]` (squeezed). -/
structure Params (H : ℕ) where
  w1 : Fin H → Fin 2 → ℝ
  b1 : Fin H → ℝ
  w2 : Fin H → ℝ
  b2 : ℝ

/-- A batch as the loader yields it to the training/eval loops: a feature
row (`Fin 2 → ℝ`) and an integer class label per sample. -/
abbrev Batch := List ((Fin 2 → ℝ) × ℤ)

/-- `self.linear1(x)`: row `h` of the first affine layer. -/
noncomputable def preact {H : ℕ} (p : Params H) (x : Fin 2 → ℝ) (h : Fin H) : ℝ :=
  (∑ i, p.w1 h i * x i) + p.b1 h

/-- `self.act_fn(self.linear1(x))`: the tanh hidden representation. -/
noncomputable def hiddenOut {H : ℕ} (p : Params H) (x : Fin 2 → ℝ) (h : Fin H) : ℝ :=
  Real.tanh (preact p x h)

/-- `SimpleClassifier.forward` followed by `squeeze(dim=1)`: the scalar
logit of one sample. -/
noncomputable def logit {H : ℕ} (p : Params H) (x : Fin 2 → ℝ) : ℝ :=
  (∑ h, p.w2 h * hiddenOut p x h) + p.b2

/-! ## Loss (`nn.BCEWithLogitsLoss()`)

The notebook documents `nn.BCEWithLogitsLoss` as the combination of a
sigmoid layer with the binary cross entropy
`-(y log x + (1 - y) log (1 - x))`, reduced by the default mean over the
batch; that is the definition embedded here. -/

/-- `torch.sigmoid`. -/
noncomputable def sigmoid (z : ℝ) : ℝ := 1 / (1 + Real.exp (-z))

/-- Per-sample binary cross entropy on a probability `x` against a 0/1
label `y`, as displayed in the notebook. -/
noncomputable def binary_cross_entropy (x y : ℝ) : ℝ :=
  -(y * Real.log x + (1 - y) * Real.log (1 - x))

/-- Per-sample `BCEWithLogitsLoss`: sigmoid followed by binary cross
entropy, as the notebook describes the module. -/
noncomputable def bce_with_logits (z y : ℝ) : ℝ :=
  binary_cross_entropy (sigmoid z) y

/-- `loss_module(preds, labels)`: the batch loss with the module's default
mean reduction, on a list of (logit, label) pairs. -/
noncomputable def loss_module (batch : List (ℝ × ℝ)) : ℝ :=
  (batch.map fun s => bce_with_logits s.1 s.2).sum / batch.length

/-- The loss value the trainer computes in Step 3:
`loss_module(model(data_inputs).squeeze(1), data_labels.float())`. -/
noncomputable def train_loss {H : ℕ} (p : Params H) (batch : Batch) : ℝ :=
  loss_module (batch.map fun s => (logit p s.1, (s.2 : ℝ)))

/-! ## Gradients and the optimizer

The notebook documents autograd's accumulation semantics (`backward` adds
the new gradients to the existing `.grad` buffers instead of overwriting
them, and `optimizer.zero_grad()` resets them all to zero) and SGD's
update (`parameter -= lr * gradient`).  The backward pass itself is the
hand-written reverse-mode sweep through the fixed architecture: the loss
sensitivity `(sigmoid z - y) / N` at each logit, propagated back through
`linear2`, the tanh (derivative `1 - tanh²`), and `linear1`. -/

/-- The `.grad` buffers, one per parameter tensor of `SimpleClassifier`. -/
structure Grads (H : ℕ) where
  gw1 : Fin H → Fin 2 → ℝ
  gb1 : Fin H → ℝ
  gw2 : Fin H → ℝ
  gb2 : ℝ

/-- Componentwise sum of gradient buffers. -/
def Grads.add {H : ℕ} (g g' : Grads H) : Grads H :=
  ⟨fun h i => g.gw1 h i + g'.gw1 h i, fun h => g.gb1 h + g'.gb1 h,
   fun h => g.gw2 h + g'.gw2 h, g.gb2 + g'.gb2⟩

/-- All-zero gradient buffers. -/
def Grads.zero (H : ℕ) : Grads H := ⟨fun _ _ => 0, fun _ => 0, fun _ => 0, 0⟩

/-- Reverse-mode gradient contribution of one sample to the mean-reduced
batch loss (`n` is the batch size entering the mean): the logit
sensitivity `dz = (sigmoid z - y) / n` is pushed through `linear2`, the
tanh (via `1 - tanh²`), and `linear1`. -/
noncomputable def sampleGrad {H : ℕ} (p : Params H) (n : ℕ) (s : (Fin 2 → ℝ) × ℤ) :
    Grads H :=
  let z := logit p s.1
  let dz := (sigmoid z - (s.2 : ℝ)) / (n : ℝ)
  let dh := fun h => dz * p.w2 h * (1 - hiddenOut p s.1 h ^ 2)
  ⟨fun h i => dh h * s.1 i, dh, fun h => dz * hiddenOut p s.1 h, dz⟩

/-- The full gradient of the batch loss at parameters `p`: sum of the
per-sample reverse-mode contributions. -/
noncomputable def lossGrad {H : ℕ} (p : Params H) (batch : Batch) : Grads H :=
  (batch.map (sampleGrad p batch.length)).foldl Grads.add (Grads.zero H)

/-- `loss.backward()`: autograd ADDS the fresh gradients onto whatever the
`.grad` buffers already hold (the accumulation semantics the notebook
warns about). -/
noncomputable def backward {H : ℕ} (g : Grads H) (p : Params H) (batch : Batch) :
    Grads H :=
  g.add (lossGrad p batch)

/-- `optimizer.zero_grad()`: resets every accumulated gradient to zero. -/
def zero_grad {H : ℕ} (_ : Grads H) : Grads H := Grads.zero H

/-- `optimizer.step()` for `torch.optim.SGD(model.parameters(), lr)`:
`parameter -= lr * gradient` for every parameter tensor, in place. -/
noncomputable def sgdStep {H : ℕ} (lr : ℝ) (p : Params H) (g : Grads H) : Params H :=
  ⟨fun h i => p.w1 h i - lr * g.gw1 h i, fun h => p.b1 h - lr * g.gb1 h,
   fun h => p.w2 h - lr * g.gw2 h, p.b2 - lr * g.gb2⟩

/-! ## Trainer (`train_model`) -/

/-- One training step on one batch, with the body's order: forward pass to
logits and loss (Steps 2-3, pure values consumed by the backward pass),
`optimizer.zero_grad()` (Step 4a), `loss.backward()` accumulating into the
zeroed buffers (Step 4b), `optimizer.step()` updating the parameters in
place (Step 5). -/
noncomputable def trainStep {H : ℕ} (lr : ℝ) (st : Params H × Grads H) (batch : Batch) :
    Params H × Grads H :=
  let g := backward (zero_grad st.2) st.1 batch
  (sgdStep lr st.1 g, g)

/-- The inner loop `for data_inputs, data_labels in data_loader`: steps run
strictly sequentially in loader-yielded batch order. -/
noncomputable def trainEpoch {H : ℕ} (lr : ℝ) (st : Params H × Grads H)
    (batches : List Batch) : Params H × Grads H :=
  batches.foldl (trainStep lr) st

/-- The outer loop `for epoch in range(num_epochs)`: epochs run
sequentially `0 .. num_epochs - 1`. -/
noncomputable def trainEpochs {H : ℕ} (lr : ℝ) (batches : List Batch) :
    ℕ → Params H × Grads H → Params H × Grads H
  | 0, st => st
  | e + 1, st => trainEpochs lr batches e (trainEpoch lr st batches)

/-- The mutable state of the model object: its parameters, its `.grad`
buffers, and the train/eval mode flag toggled by `model.train()` /
`model.eval()`. -/
structure ModelState (H : ℕ) where
  params : Params H
  grads : Grads H
  training : Bool

/-- `train_model(model, optimizer, data_loader, loss_module, num_epochs)`:
sets the model to train mode, then runs `numEpochs` sequential epochs over
the loader's batch sequence. -/
noncomputable def train_model {H : ℕ} (lr : ℝ) (batches : List Batch) (numEpochs : ℕ)
    (m : ModelState H) : ModelState H :=
  let st := trainEpochs lr batches numEpochs (m.params, m.grads)
  { params := st.1, grads := st.2, training := true }

/-! ## Evaluator (`eval_model`) -/

open Classical in
/-- The hard label of one sample:
`(torch.sigmoid(preds) >= 0.5).long()` — probability at least `0.5` maps
to class 1, otherwise class 0. -/
noncomputable def predLabel {H : ℕ} (p : Params H) (x : Fin 2 → ℝ) : ℤ :=
  if (1 : ℝ) / 2 ≤ sigmoid (logit p x) then 1 else 0

/-- `(pred_labels == data_labels).sum()` for one batch. -/
noncomputable def countCorrect {H : ℕ} (p : Params H) (b : Batch) : ℕ :=
  b.countP fun s => predLabel p s.1 == s.2

/-- The `for data_inputs, data_labels in data_loader` loop of `eval_model`:
threads the model state through while accumulating
`(true_preds, num_preds)`; each iteration only reads the parameters. -/
noncomputable def evalLoop {H : ℕ} (st : ModelState H) :
    List Batch → ℕ × ℕ → (ℕ × ℕ) × ModelState H
  | [], acc => (acc, st)
  | b :: bs, acc => evalLoop st bs (acc.1 + countCorrect st.params b, acc.2 + b.length)

/-- `eval_model(model, data_loader)`: switches the model to eval mode, runs
forward passes only, and computes `acc = true_preds / num_preds`.  The
division is unguarded in the source; with zero accumulated predictions the
Python floats `0.0 / 0.0` raise `ZeroDivisionError`, modelled as `none`. -/
noncomputable def eval_model {H : ℕ} (m : ModelState H) (bs : List Batch) :
    Option ℝ × ModelState H :=
  let r := evalLoop { m with training := false } bs (0, 0)
  (if r.1.2 = 0 then none else some ((r.1.1 : ℝ) / (r.1.2 : ℝ)), r.2)

/-! ## Parameter persistence (`state_dict` / `load_state_dict`) -/

/-- The named mapping `model.state_dict()` holds: entries
`linear1.weight`, `linear1.bias`, `linear2.weight`, `linear2.bias` with
their numeric contents (shapes are carried by the types). -/
structure StateDict (H : ℕ) where
  linear1_weight : Fin H → Fin 2 → ℝ
  linear1_bias : Fin H → ℝ
  linear2_weight : Fin H → ℝ
  linear2_bias : ℝ

/-- `model.state_dict()`: extract the named parameter mapping. -/
def state_dict {H : ℕ} (p : Params H) : StateDict H :=
  ⟨p.w1, p.b1, p.w2, p.b2⟩

/-- Modelled from the spec: `torch.save(state_dict, file)` followed by
`torch.load(file)` (the on-disk serialization is outside src/); the spec
requires the round trip to reproduce the mapping numerically identically,
so it is the identity on the mapping. -/
def torch_save_then_load {H : ℕ} (sd : StateDict H) : StateDict H := sd

/-- `model.load_state_dict(state_dict)`: overwrite every parameter of the
receiving model with the mapping's contents. -/
def load_state_dict {H : ℕ} (m : ModelState H) (sd : StateDict H) : ModelState H :=
  { m with params := ⟨sd.linear1_weight, sd.linear1_bias, sd.linear2_weight, sd.linear2_bias⟩ }

/-! ## Concrete instances used by the witnesses -/

/-- A concrete `SimpleClassifier(2, 1, 1)` state: zero weights, output
bias 1, so every sample's logit is 1. -/
noncomputable def M0 : ModelState 1 :=
  { params := ⟨fun _ _ => 0, fun _ => 0, fun _ => 0, 1⟩
    grads := ⟨fun _ _ => 0, fun _ => 0, fun _ => 0, 0⟩
    training := true }

/-- A concrete one-sample batch: features `(0, 0)`, label 1. -/
noncomputable def B0 : Batch := [(fun _ => 0, 1)]

/-! ## List lemmas for the loader -/

theorem chunksAux_flatten {b : ℕ} (hb : 0 < b) :
    ∀ (fuel : ℕ) (l : List ℕ), l.length ≤ fuel → (chunksAux b fuel l).flatten = l := by
  intro fuel
  induction fuel with
  | zero =>
    intro l hl
    have : l = [] := List.length_eq_zero.mp (Nat.le_zero.mp hl)
    simp [this, chunksAux]
  | succ fuel ih =>
    intro l hl
    match l with
    | [] => simp [chunksAux]
    | x :: xs =>
      have hdrop : ((x :: xs).drop b).length ≤ fuel := by
        rw [List.length_drop]
        omega
      simp only [chunksAux, List.flatten_cons, ih _ hdrop]
      exact List.take_append_drop b (x :: xs)

theorem chunksAux_map_length {b : ℕ} (hb : 0 < b) :
    ∀ (fuel : ℕ) (l : List ℕ), l.length ≤ fuel →
      (chunksAux b fuel l).map List.length =
        List.replicate (l.length / b) b ++
          (if l.length % b = 0 then [] else [l.length % b]) := by
  intro fuel
  induction fuel with
  | zero =>
    intro l hl
    have : l = [] := List.length_eq_zero.mp (Nat.le_zero.mp hl)
    simp [this, chunksAux]
  | succ fuel ih =>
    intro l hl
    match l with
    | [] => simp [chunksAux]
    | x :: xs =>
      have hpos : 0 < (x :: xs).length := by simp
      have hdrop : ((x :: xs).drop b).length ≤ fuel := by
        rw [List.length_drop]
        omega
      rw [chunksAux, List.map_cons, ih _ hdrop, List.length_drop, List.length_take]
      rcases le_or_lt b (x :: xs).length with hble | hlt
      · have hdiv : (x :: xs).length / b = ((x :: xs).length - b) / b + 1 :=
          Nat.div_eq_sub_div hb hble
        have hmod : (x :: xs).length % b = ((x :: xs).length - b) % b :=
          (Nat.mod_eq_sub_mod hble).symm ▸ rfl
        rw [min_eq_left hble, hdiv, hmod]
        simp [List.replicate_succ]
      · have hdiv : (x :: xs).length / b = 0 := Nat.div_eq_of_lt hlt
        have hmod : (x :: xs).length % b = (x :: xs).length := Nat.mod_eq_of_lt hlt
        have hdropnil : (x :: xs).length - b = 0 := by omega
        rw [min_eq_right (le_of_lt hlt), hdiv, hmod, hdropnil]
        have : chunksAux b fuel ((x :: xs).drop b) = [] := by
          have : (x :: xs).drop b = [] := by
            apply List.eq_nil_of_length_eq_zero
            rw [List.length_drop]
            omega
          cases fuel <;> simp [this, chunksAux]
        simp [this]

theorem chunksAux_filter_map_length {b : ℕ} (hb : 0 < b) :
    ∀ (fuel : ℕ) (l : List ℕ), l.length ≤ fuel →
      ((chunksAux b fuel l).filter (fun c => c.length == b)).map List.length =
        List.replicate (l.length / b) b := by
  intro fuel
  induction fuel with
  | zero =>
    intro l hl
    have : l = [] := List.length_eq_zero.mp (Nat.le_zero.mp hl)
    simp [this, chunksAux]
  | succ fuel ih =>
    intro l hl
    match l with
    | [] => simp [chunksAux]
    | x :: xs =>
      have hdrop : ((x :: xs).drop b).length ≤ fuel := by
        rw [List.length_drop]
        omega
      rw [chunksAux, List.filter_cons]
      rcases le_or_lt b (x :: xs).length with hble | hlt
      · have htake : ((x :: xs).take b).length = b := by
          rw [List.length_take]
          exact min_eq_left hble
        have hdiv : (x :: xs).length / b = ((x :: xs).length - b) / b + 1 :=
          Nat.div_eq_sub_div hb hble
        rw [if_pos (by simpa using htake)]
        rw [List.map_cons, ih _ hdrop, List.length_drop, htake, hdiv]
        simp [List.replicate_succ]
      · have htake : ((x :: xs).take b).length = (x :: xs).length := by
          rw [List.length_take]
          exact min_eq_right (le_of_lt hlt)
        have hne : ¬ (((x :: xs).take b).length == b) = true := by
          simp only [beq_iff_eq, htake]
          omega
        rw [if_neg hne, ih _ hdrop, List.length_drop]
        have h1 : (x :: xs).length / b = 0 := Nat.div_eq_of_lt hlt
        have h2 : ((x :: xs).length - b) / b = 0 := Nat.div_eq_of_lt (by omega)
        rw [h1, h2]

theorem chunksAux_filter_flatten {b : ℕ} (hb : 0 < b) :
    ∀ (fuel : ℕ) (l : List ℕ), l.length ≤ fuel →
      ((chunksAux b fuel l).filter (fun c => c.length == b)).flatten =
        l.take (b * (l.length / b)) := by
  intro fuel
  induction fuel with
  | zero =>
    intro l hl
    have : l = [] := List.length_eq_zero.mp (Nat.le_zero.mp hl)
    simp [this, chunksAux]
  | succ fuel ih =>
    intro l hl
    match l with
    | [] => simp [chunksAux]
    | x :: xs =>
      have hdrop : ((x :: xs).drop b).length ≤ fuel := by
        rw [List.length_drop]
        omega
      rw [chunksAux, List.filter_cons]
      rcases le_or_lt b (x :: xs).length with hble | hlt
      · have htake : ((x :: xs).take b).length = b := by
          rw [List.length_take]
          exact min_eq_left hble
        have hdiv : (x :: xs).length / b = ((x :: xs).length - b) / b + 1 :=
          Nat.div_eq_sub_div hb hble
        rw [if_pos (by simpa using htake)]
        rw [List.flatten_cons, ih _ hdrop, List.length_drop, hdiv, Nat.mul_add, Nat.mul_one,
          Nat.add_comm (b * (((x :: xs).length - b) / b)) b, List.take_add]
      · have htake : ((x :: xs).take b).length = (x :: xs).length := by
          rw [List.length_take]
          exact min_eq_right (le_of_lt hlt)
        have hne : ¬ (((x :: xs).take b).length == b) = true := by
          simp only [beq_iff_eq, htake]
          omega
        rw [if_neg hne, ih _ hdrop, List.length_drop]
        have h1 : (x :: xs).length / b = 0 := Nat.div_eq_of_lt hlt
        have h2 : ((x :: xs).length - b) / b = 0 := Nat.div_eq_of_lt (by omega)
        rw [h1, h2]
        simp

/-! ## C1: labels are the XOR of the clean bits, untouched by noise -/

/-- **C1.** For every sample of the generated dataset, the stored label is
computed from the two pre-noise Bernoulli bits alone: it is `1` iff the two
clean bits differ (their sum is exactly `1`) and `0` iff they are equal,
and the label function is identical for any noise draw and any noise
scale, so Gaussian noise never changes any label. -/
theorem generate_continuous_xor_label_is_xor_of_clean_bits
    (std std' : ℝ) (bits : ℕ → ℤ × ℤ) (noise noise' : ℕ → ℝ × ℝ) (i : ℕ)
    (h1 : (bits i).1 = 0 ∨ (bits i).1 = 1) (h2 : (bits i).2 = 0 ∨ (bits i).2 = 1) :
    ((generate_continuous_xor std bits noise).2 i = 1 ↔ (bits i).1 ≠ (bits i).2)
    ∧ ((generate_continuous_xor std bits noise).2 i = 0 ↔ (bits i).1 = (bits i).2)
    ∧ (generate_continuous_xor std bits noise).2 =
        (generate_continuous_xor std' bits noise').2 := by
  refine ⟨?_, ?_, rfl⟩ <;>
    rcases h1 with ha | ha <;> rcases h2 with hb | hb <;>
      simp [generate_continuous_xor, ha, hb]

theorem generate_continuous_xor_label_witness :
    (((fun _ : ℕ => ((0 : ℤ), (1 : ℤ))) 0).1 = 0 ∨ ((fun _ : ℕ => ((0 : ℤ), (1 : ℤ))) 0).1 = 1)
    ∧ ((generate_continuous_xor 1 (fun _ => (0, 1)) (fun _ => (5, 7))).2 0 = 1 ↔
        ((fun _ : ℕ => ((0 : ℤ), (1 : ℤ))) 0).1 ≠ ((fun _ : ℕ => ((0 : ℤ), (1 : ℤ))) 0).2) :=
  ⟨by decide,
   (generate_continuous_xor_label_is_xor_of_clean_bits 1 2 (fun _ => (0, 1))
      (fun _ => (5, 7)) (fun _ => (0, 0)) 0 (by decide) (by decide)).1⟩

/-! ## C2: construction-time validation -/

/-- **C2 counterexample.** The claim says `size <= 0` and `std < 0` must
each fail with a configuration error at construction time.  In the code
`XORDataset.__init__` performs no validation: constructing with
`size = 0` succeeds (producing an empty dataset), and constructing with
`std = -1` succeeds as well. -/
theorem xordataset_init_no_validation_counterexample :
    exceptIsOk (XORDataset.init 0 (1 / 10) (fun _ => (0, 0)) (fun _ => (0, 0))) = true
    ∧ exceptIsOk (XORDataset.init 200 (-1) (fun _ => (0, 0)) (fun _ => (0, 0))) = true := by
  constructor <;> rfl

/-- **C2 (amended).** Construction performs no eager validation of `size`
or `std`: it succeeds exactly when `size ≥ 0` (in particular `size = 0`
yields a dataset, and any negative `std` is accepted, merely scaling the
noise by a negative factor); a negative `size` fails, but with a
tensor-creation error raised inside generation rather than an eager
configuration check. -/
theorem xordataset_init_ok_iff_size_nonneg
    (size : ℤ) (std : ℝ) (bits : ℕ → ℤ × ℤ) (noise : ℕ → ℝ × ℝ) :
    exceptIsOk (XORDataset.init size std bits noise) = true ↔ 0 ≤ size := by
  unfold XORDataset.init
  by_cases h : size < 0
  · simp [h, exceptIsOk]
  · simp [h, exceptIsOk]
    omega

theorem xordataset_init_ok_iff_size_nonneg_witness :
    exceptIsOk (XORDataset.init 200 (-1) (fun _ => (0, 0)) (fun _ => (0, 0))) = true :=
  (xordataset_init_ok_iff_size_nonneg 200 (-1) (fun _ => (0, 0)) (fun _ => (0, 0))).mpr
    (by decide)

/-! ## C3: sequential loader traversal -/

/-- **C3.** A sequential (`shuffle=False`) loader traversal over a dataset
of size `n` with batch size `b > 0` partitions the indices `0 .. n-1` in
natural order into consecutive chunks: without `drop_last` the flattened
batches are exactly `0 .. n-1` in order and the batch sizes are `n / b`
full batches of size `b` followed, when `b` does not divide `n`, by one
short batch of size `n % b`; with `drop_last` the short batch is
discarded, leaving exactly the `n / b` full batches, whose concatenation
is the first `b * (n / b)` indices. -/
theorem loaderBatches_sequential_partition (n b : ℕ) (hb : 0 < b) :
    (loaderBatches n b false).flatten = List.range n
    ∧ (loaderBatches n b false).map List.length =
        List.replicate (n / b) b ++ (if n % b = 0 then [] else [n % b])
    ∧ (loaderBatches n b true).map List.length = List.replicate (n / b) b
    ∧ (loaderBatches n b true).flatten = (List.range n).take (b * (n / b)) := by
  have hlen : (List.range n).length ≤ n := by simp
  refine ⟨?_, ?_, ?_, ?_⟩
  · simpa using chunksAux_flatten hb n (List.range n) hlen
  · simpa using chunksAux_map_length hb n (List.range n) hlen
  · simpa using chunksAux_filter_map_length hb n (List.range n) hlen
  · simpa using chunksAux_filter_flatten hb n (List.range n) hlen

theorem loaderBatches_sequential_partition_witness :
    ((loaderBatches 10 4 false).map List.length = [4, 4, 2]
      ∧ (loaderBatches 10 4 true).map List.length = [4, 4])
    ∧ (loaderBatches 10 4 false).flatten = List.range 10 := by
  refine ⟨⟨?_, ?_⟩, (loaderBatches_sequential_partition 10 4 (by decide)).1⟩
  · simpa using (loaderBatches_sequential_partition 10 4 (by decide)).2.1
  · simpa using (loaderBatches_sequential_partition 10 4 (by decide)).2.2.1

/-! ## C4: the loss is the numerically stable BCE-with-logits, mean-reduced -/

theorem one_add_exp_pos (z : ℝ) : (0 : ℝ) < 1 + Real.exp z := by positivity

theorem log_sigmoid (z : ℝ) :
    Real.log (sigmoid z) = -Real.log (1 + Real.exp (-z)) := by
  rw [sigmoid, one_div, Real.log_inv]

theorem one_sub_sigmoid (z : ℝ) :
    1 - sigmoid z = Real.exp (-z) / (1 + Real.exp (-z)) := by
  have h : (1 : ℝ) + Real.exp (-z) ≠ 0 := ne_of_gt (one_add_exp_pos (-z))
  rw [sigmoid]
  field_simp

theorem log_one_sub_sigmoid (z : ℝ) :
    Real.log (1 - sigmoid z) = -z - Real.log (1 + Real.exp (-z)) := by
  rw [one_sub_sigmoid,
    Real.log_div (Real.exp_ne_zero _) (ne_of_gt (one_add_exp_pos (-z))), Real.log_exp]

theorem bce_with_logits_closed_form (z y : ℝ) :
    bce_with_logits z y = z - z * y + Real.log (1 + Real.exp (-z)) := by
  unfold bce_with_logits binary_cross_entropy
  rw [log_sigmoid, log_one_sub_sigmoid]
  ring

theorem bce_closed_form_eq_stable (z y : ℝ) :
    z - z * y + Real.log (1 + Real.exp (-z)) =
      max z 0 - z * y + Real.log (1 + Real.exp (-|z|)) := by
  rcases le_or_lt 0 z with hz | hz
  · rw [abs_of_nonneg hz, max_eq_left hz]
  · rw [abs_of_neg hz, max_eq_right hz.le, neg_neg]
    have hexp : Real.exp (-z) * Real.exp z = 1 := by
      rw [← Real.exp_add, neg_add_cancel, Real.exp_zero]
    have h1 : (1 : ℝ) + Real.exp (-z) = Real.exp (-z) * (1 + Real.exp z) := by
      rw [mul_add, mul_one, hexp]
      ring
    rw [h1, Real.log_mul (Real.exp_ne_zero _) (ne_of_gt (one_add_exp_pos z)),
      Real.log_exp]
    ring

/-- **C4.** The loss module computes the numerically stable
binary-cross-entropy-with-logits: per sample it equals
`max(z,0) - z*y + log(1 + exp(-|z|))`, the batch value is the mean of
those per-sample values, and the trainer's Step-3 loss is exactly this
module applied to the model's logits and the float-cast labels, so one
convention (the mean) is used throughout. -/
theorem loss_module_is_stable_bce_mean {H : ℕ} (z y : ℝ) (batch : List (ℝ × ℝ))
    (p : Params H) (tb : Batch) :
    bce_with_logits z y = max z 0 - z * y + Real.log (1 + Real.exp (-|z|))
    ∧ loss_module batch =
        (batch.map fun s => max s.1 0 - s.1 * s.2 + Real.log (1 + Real.exp (-|s.1|))).sum
          / batch.length
    ∧ train_loss p tb = loss_module (tb.map fun s => (logit p s.1, (s.2 : ℝ))) := by
  have hpt : ∀ a b : ℝ,
      bce_with_logits a b = max a 0 - a * b + Real.log (1 + Real.exp (-|a|)) := by
    intro a b
    rw [bce_with_logits_closed_form, bce_closed_form_eq_stable]
  refine ⟨hpt z y, ?_, rfl⟩
  unfold loss_module
  have : (fun s : ℝ × ℝ => bce_with_logits s.1 s.2) =
      fun s : ℝ × ℝ => max s.1 0 - s.1 * s.2 + Real.log (1 + Real.exp (-|s.1|)) :=
    funext fun s => hpt s.1 s.2
  rw [this]

/-! ## C5: gradient accumulation is additive and resettable -/

theorem Grads.zero_add {H : ℕ} (g : Grads H) : (Grads.zero H).add g = g := by
  cases g with
  | mk w1 b1 w2 b2 =>
    unfold Grads.add Grads.zero
    simp

/-- **C5.** Autograd accumulation: starting from zeroed buffers, two
backward passes on the same parameters without a reset leave, in every
parameter's buffer, the sum of the two individual-pass gradients; with an
`optimizer.zero_grad()` reset between them, the second pass's buffers
equal a single independent computation of that pass's gradient. -/
theorem backward_accumulates_and_zero_grad_resets {H : ℕ} (p : Params H)
    (g : Grads H) (b1 b2 : Batch) :
    backward (backward (Grads.zero H) p b1) p b2 =
      (backward (Grads.zero H) p b1).add (backward (Grads.zero H) p b2)
    ∧ backward (zero_grad (backward (Grads.zero H) p b1)) p b2 =
        backward (Grads.zero H) p b2
    ∧ backward (zero_grad g) p b2 = backward (Grads.zero H) p b2 := by
  refine ⟨?_, rfl, rfl⟩
  unfold backward
  rw [Grads.zero_add, Grads.zero_add]

/-! ## C6: the training step sequence and its ordering

Supporting calculus: the sensitivity `sigmoid z - y` that the backward
sweep puts at each logit is the true derivative of the per-sample loss in
the logit, the tanh backward factor `1 - tanh²` is the true derivative of
the activation, and the stored gradients are true derivatives of the batch
loss in the corresponding parameter directions. -/

theorem bce_with_logits_hasDerivAt (y z : ℝ) :
    HasDerivAt (fun w => bce_with_logits w y) (sigmoid z - y) z := by
  have hpos : (0 : ℝ) < 1 + Real.exp (-z) := one_add_exp_pos (-z)
  have h1 : HasDerivAt (fun w : ℝ => -w) (-1) z := (hasDerivAt_id z).neg
  have h2 : HasDerivAt (fun w : ℝ => Real.exp (-w)) (Real.exp (-z) * -1) z := h1.exp
  have h3 : HasDerivAt (fun w : ℝ => 1 + Real.exp (-w)) (Real.exp (-z) * -1) z :=
    h2.const_add 1
  have h4 : HasDerivAt (fun w : ℝ => Real.log (1 + Real.exp (-w)))
      ((Real.exp (-z) * -1) / (1 + Real.exp (-z))) z := h3.log (ne_of_gt hpos)
  have h5 : HasDerivAt (fun w : ℝ => w - w * y) (1 - 1 * y) z :=
    (hasDerivAt_id z).sub ((hasDerivAt_id z).mul_const y)
  have h6 := h5.add h4
  have heq : (fun w : ℝ => w - w * y + Real.log (1 + Real.exp (-w))) =
      fun w => bce_with_logits w y :=
    funext fun w => (bce_with_logits_closed_form w y).symm
  rw [heq] at h6
  convert h6 using 1
  rw [sigmoid]
  field_simp
  ring

theorem tanh_hasDerivAt (x : ℝ) :
    HasDerivAt Real.tanh (1 - Real.tanh x ^ 2) x := by
  have hcosh : Real.cosh x ≠ 0 := ne_of_gt (Real.cosh_pos x)
  have h : HasDerivAt (fun y => Real.sinh y / Real.cosh y)
      ((Real.cosh x * Real.cosh x - Real.sinh x * Real.sinh x) / Real.cosh x ^ 2) x :=
    (Real.hasDerivAt_sinh x).div (Real.hasDerivAt_cosh x) hcosh
  have heq : (fun y => Real.sinh y / Real.cosh y) = Real.tanh :=
    funext fun y => (Real.tanh_eq_sinh_div_cosh y).symm
  rw [heq] at h
  convert h using 1
  have hc : Real.cosh x ^ 2 - Real.sinh x ^ 2 = 1 := Real.cosh_sq_sub_sinh_sq x
  rw [Real.tanh_eq_sinh_div_cosh]
  field_simp
  nlinarith [hc]

theorem lossGrad_gb2_hasDerivAt {H : ℕ} (p : Params H) (s : (Fin 2 → ℝ) × ℤ) :
    HasDerivAt (fun t => train_loss ({ p with b2 := t } : Params H) [s])
      ((lossGrad p [s]).gb2) p.b2 := by
  have hfun : (fun t => train_loss ({ p with b2 := t } : Params H) [s]) =
      fun t =>
        bce_with_logits ((∑ h, p.w2 h * hiddenOut p s.1 h) + t) (s.2 : ℝ) / 1 := by
    funext t
    simp [train_loss, loss_module, logit, hiddenOut, preact]
  rw [hfun]
  have h1 : HasDerivAt (fun t : ℝ => (∑ h, p.w2 h * hiddenOut p s.1 h) + t) 1 p.b2 :=
    (hasDerivAt_id _).const_add _
  have h2 := ((bce_with_logits_hasDerivAt (s.2 : ℝ)
      ((∑ h, p.w2 h * hiddenOut p s.1 h) + p.b2)).comp p.b2 h1).div_const 1
  convert h2 using 1
  simp [lossGrad, sampleGrad, Grads.add, Grads.zero, logit]

theorem lossGrad_gb1_hasDerivAt_one_hidden (q : Params 1) (s : (Fin 2 → ℝ) × ℤ) :
    HasDerivAt (fun t => train_loss (Params.mk q.w1 (fun _ => t) q.w2 q.b2) [s])
      ((lossGrad q [s]).gb1 0) (q.b1 0) := by
  have hfun : (fun t => train_loss (Params.mk q.w1 (fun _ => t) q.w2 q.b2) [s]) =
      fun t =>
        bce_with_logits (q.w2 0 * Real.tanh ((∑ i, q.w1 0 i * s.1 i) + t) + q.b2)
          (s.2 : ℝ) / 1 := by
    funext t
    simp [train_loss, loss_module, logit, hiddenOut, preact, Fin.sum_univ_one]
  rw [hfun]
  have h1 : HasDerivAt (fun t : ℝ => (∑ i, q.w1 0 i * s.1 i) + t) 1 (q.b1 0) :=
    (hasDerivAt_id _).const_add _
  have h2 : HasDerivAt (fun t : ℝ => Real.tanh ((∑ i, q.w1 0 i * s.1 i) + t))
      ((1 - Real.tanh ((∑ i, q.w1 0 i * s.1 i) + q.b1 0) ^ 2) * 1) (q.b1 0) :=
    (tanh_hasDerivAt ((∑ i, q.w1 0 i * s.1 i) + q.b1 0)).comp (q.b1 0) h1
  have h3 := (h2.const_mul (q.w2 0)).add_const q.b2
  have h4 := ((bce_with_logits_hasDerivAt (s.2 : ℝ)
      (q.w2 0 * Real.tanh ((∑ i, q.w1 0 i * s.1 i) + q.b1 0) + q.b2)).comp
      (q.b1 0) h3).div_const 1
  convert h4 using 1
  simp [lossGrad, sampleGrad, Grads.add, Grads.zero, logit, hiddenOut, preact,
    Fin.sum_univ_one]
  ring

/-! ## C6: the claim theorem -/

/-- **C6.** Each training step runs the fixed sequence on the loader's next
batch: the gradients left in the buffers are exactly the reverse-mode
gradient of the batch loss at the pre-step parameters (zeroing makes them
independent of whatever the buffers held before), the optimizer then
updates every parameter in place by `p -= lr * grad`; batches within an
epoch are consumed strictly sequentially in loader order, and epochs run
sequentially, `train_model` being the epoch iteration started from the
model's current parameters with the mode flag set to train.  The stored
gradient is a true reverse-mode derivative of the loss through the two
affine layers and the tanh: in the layer-2 bias direction for any width,
and in the layer-1 bias direction for a width-1 hidden layer. -/
theorem train_model_step_sequence {H : ℕ} (lr : ℝ) (p : Params H) (g : Grads H)
    (b : Batch) (bs : List Batch) (st : Params H × Grads H)
    (batches : List Batch) (e : ℕ) (m : ModelState H) :
    (trainStep lr (p, g) b).2 = lossGrad p b
    ∧ (trainStep lr (p, g) b).1 = sgdStep lr p (lossGrad p b)
    ∧ (sgdStep lr p (lossGrad p b)).b2 = p.b2 - lr * (lossGrad p b).gb2
    ∧ trainEpoch lr st (b :: bs) = trainEpoch lr (trainStep lr st b) bs
    ∧ trainEpoch lr st [] = st
    ∧ trainEpochs lr batches (e + 1) st = trainEpochs lr batches e (trainEpoch lr st batches)
    ∧ (train_model lr batches (e + 1) m).params =
        (trainEpochs lr batches e (trainEpoch lr (m.params, m.grads) batches)).1
    ∧ (train_model lr batches (e + 1) m).training = true
    ∧ (∀ s : (Fin 2 → ℝ) × ℤ,
        HasDerivAt (fun t => train_loss ({ p with b2 := t } : Params H) [s])
          ((lossGrad p [s]).gb2) p.b2)
    ∧ (∀ (q : Params 1) (s : (Fin 2 → ℝ) × ℤ),
        HasDerivAt (fun t => train_loss (Params.mk q.w1 (fun _ => t) q.w2 q.b2) [s])
          ((lossGrad q [s]).gb1 0) (q.b1 0)) := by
  refine ⟨?_, ?_, rfl, rfl, rfl, rfl, rfl, rfl,
    fun s => lossGrad_gb2_hasDerivAt p s,
    fun q s => lossGrad_gb1_hasDerivAt_one_hidden q s⟩
  · show backward (zero_grad g) p b = lossGrad p b
    unfold backward zero_grad
    rw [Grads.zero_add]
  · show sgdStep lr p (backward (zero_grad g) p b) = sgdStep lr p (lossGrad p b)
    unfold backward zero_grad
    rw [Grads.zero_add]

/-! ## Evaluator lemmas -/

theorem evalLoop_spec {H : ℕ} (st : ModelState H) :
    ∀ (bs : List Batch) (t n : ℕ),
      evalLoop st bs (t, n) =
        ((t + (bs.map (countCorrect st.params)).sum,
          n + (bs.map List.length).sum), st) := by
  intro bs
  induction bs with
  | nil => intro t n; simp [evalLoop]
  | cons b bs ih =>
    intro t n
    rw [evalLoop, ih]
    simp [Nat.add_assoc]

theorem countCorrect_le_length {H : ℕ} (p : Params H) (b : Batch) :
    countCorrect p b ≤ b.length :=
  List.countP_le_length _

theorem countCorrect_sum_le {H : ℕ} (p : Params H) :
    ∀ bs : List Batch,
      (bs.map (countCorrect p)).sum ≤ (bs.map List.length).sum := by
  intro bs
  induction bs with
  | nil => simp
  | cons b bs ih =>
    simp only [List.map_cons, List.sum_cons]
    exact Nat.add_le_add (countCorrect_le_length p b) ih

/-! ## C7: accuracy computed by sigmoid-threshold counting -/

/-- **C7.** On a loader that yields at least one sample, the evaluator
produces the accuracy: each logit is mapped through the sigmoid,
thresholded at `0.5` (probability `≥ 0.5` gives class 1) to a hard label,
and the result is the count of predicted labels equal to true labels
divided by the total number of samples across all batches (each batch,
partial ones included, contributing its true size); the value lies in
`[0, 1]`. -/
theorem eval_model_accuracy {H : ℕ} (m : ModelState H) (bs : List Batch)
    (hne : (bs.map List.length).sum ≠ 0) :
    (eval_model m bs).1 =
      some (((bs.map (countCorrect m.params)).sum : ℝ) / ((bs.map List.length).sum : ℝ))
    ∧ (0 : ℝ) ≤ ((bs.map (countCorrect m.params)).sum : ℝ) / ((bs.map List.length).sum : ℝ)
    ∧ ((bs.map (countCorrect m.params)).sum : ℝ) / ((bs.map List.length).sum : ℝ) ≤ 1 := by
  have hp : ({ m with training := false } : ModelState H).params = m.params := rfl
  refine ⟨?_, ?_, ?_⟩
  · unfold eval_model
    rw [evalLoop_spec]
    simp [hne]
  · positivity
  · rw [div_le_one (by exact_mod_cast Nat.pos_of_ne_zero hne)]
    exact_mod_cast countCorrect_sum_le m.params bs

theorem eval_model_accuracy_witness :
    (([B0].map List.length).sum ≠ 0)
    ∧ (eval_model M0 [B0]).1 =
        some ((([B0].map (countCorrect M0.params)).sum : ℝ)
          / (([B0].map List.length).sum : ℝ)) :=
  ⟨by simp [B0], (eval_model_accuracy M0 [B0] (by simp [B0])).1⟩

/-! ## C8: evaluation is read-only on the model -/

/-- **C8.** Evaluation never touches the model's learnable state: after
`eval_model`, both weight matrices, both bias vectors and the gradient
buffers are exactly what they were before the call (only the train/eval
mode flag is switched to eval); no gradient is computed or accumulated. -/
theorem eval_model_readonly {H : ℕ} (m : ModelState H) (bs : List Batch) :
    ((eval_model m bs).2).params.w1 = m.params.w1
    ∧ ((eval_model m bs).2).params.b1 = m.params.b1
    ∧ ((eval_model m bs).2).params.w2 = m.params.w2
    ∧ ((eval_model m bs).2).params.b2 = m.params.b2
    ∧ ((eval_model m bs).2).params = m.params
    ∧ ((eval_model m bs).2).grads = m.grads
    ∧ ((eval_model m bs).2).training = false := by
  unfold eval_model
  rw [evalLoop_spec]
  exact ⟨rfl, rfl, rfl, rfl, rfl, rfl, rfl⟩

/-! ## C9: the state-dict round trip -/

/-- **C9.** Saving a model's parameters as the named mapping and loading
the (identically round-tripped) mapping into a freshly constructed model
of the same architecture reproduces numerically identical parameters, so
the loaded model's forward pass returns the same logit as the original on
every input. -/
theorem state_dict_roundtrip {H : ℕ} (m freshModel : ModelState H) :
    (load_state_dict freshModel (torch_save_then_load (state_dict m.params))).params
        = m.params
    ∧ ∀ x : Fin 2 → ℝ,
        logit (load_state_dict freshModel (torch_save_then_load (state_dict m.params))).params x
          = logit m.params x :=
  ⟨rfl, fun _ => rfl⟩

/-! ## C10: the empty loader divides by zero -/

/-- **C10.** If the loader yields no samples (an empty batch sequence, or
only empty batches), `eval_model` reaches `acc = true_preds / num_preds`
with `num_preds = 0`; the division is unguarded in the source and no
accuracy value in `[0, 1]` is produced — the embedding returns `none`
where the Python floats raise `ZeroDivisionError`. -/
theorem eval_model_division_by_zero_on_empty_loader {H : ℕ} (m : ModelState H)
    (bs : List Batch) (h : (bs.map List.length).sum = 0) :
    (eval_model m bs).1 = none := by
  unfold eval_model
  rw [evalLoop_spec]
  simp [h]

theorem eval_model_division_by_zero_witness :
    (([] : List Batch).map List.length).sum = 0 ∧ (eval_model M0 []).1 = none :=
  ⟨rfl, eval_model_division_by_zero_on_empty_loader M0 [] rfl⟩

end MAD
